import Mathlib

/-!
# Verification of the TimeWindowDeque sliding-window buffer

Shallow embedding of the two `TimeWindowDeque` implementations found in the
repository (`TimeWindowDeque-array-impl.ts`: a naive linear-storage version,
and the circular-buffer version `Time-Window-Deque.ts`), together with proofs
of the specification's claims about them.

Modelling choices:
* JS `number` values used as prices and sums are modelled as exact rationals
  (`ℚ`); timestamps as integers (`ℤ`).  JS float64 rounding is outside the
  model; all claims about aggregates are settled over exact arithmetic.
  A separate small model (`JSNum`) with explicit non-finite values (NaN, ±∞)
  is used for the claim about non-finite input handling.
* JS arrays are Lean lists; the circular buffer's backing store
  `(T | undefined)[]` is a `List (Option PriceData)`, reads out of range give
  `undefined` (= `none`), matching JS semantics of `buffer[index]`.
* Methods are pure state transformers; `while` loops become recursion on a
  decreasing measure, exactly mirroring the loop condition and body.
-/

/-- `PriceData` from the source: a price sample with its timestamp. -/
structure PriceData where
  price : ℚ
  timestamp : ℤ
deriving DecidableEq, Repr

/-- An operation on a time-window deque: the two mutators of the class. -/
inductive Op where
  | push (price : ℚ) (timestamp : ℤ)
  | expire (cutoff : ℤ)
deriving DecidableEq, Repr

namespace ArrayImpl

/-- The array-based `TimeWindowDeque` (file `TimeWindowDeque-array-impl.ts`):
`data` is the JS array of active samples, `sum` the running sum,
`expiredData` the history of evicted samples. -/
structure TimeWindowDeque where
  data : List PriceData
  sum : ℚ
  expiredData : List PriceData
deriving DecidableEq, Repr

namespace TimeWindowDeque

/-- A freshly-constructed array-based deque: all fields take their
initializers (`[]`, `0`, `[]`). -/
def new : TimeWindowDeque := ⟨[], 0, []⟩

/-- `push(price, timestamp)`: appends `{price, timestamp}` to `data` and adds
`price` to `sum`. -/
def push (d : TimeWindowDeque) (price : ℚ) (timestamp : ℤ) : TimeWindowDeque :=
  { d with data := d.data ++ [⟨price, timestamp⟩], sum := d.sum + price }

/-- The `while` loop of `expire(cutoff)`, in state-threading form: while
`data` is non-empty and its first element's timestamp is `< cutoff`, shift it
off, subtract its price from the sum and append it to the expired history. -/
def expireAux (cutoff : ℤ) :
    List PriceData → ℚ → List PriceData → List PriceData × ℚ × List PriceData
  | [], sum, expired => ([], sum, expired)
  | first :: rest, sum, expired =>
    if first.timestamp < cutoff then
      expireAux cutoff rest (sum - first.price) (expired ++ [first])
    else
      (first :: rest, sum, expired)

/-- `expire(cutoff)` of the array implementation. -/
def expire (d : TimeWindowDeque) (cutoff : ℤ) : TimeWindowDeque :=
  let r := expireAux cutoff d.data d.sum d.expiredData
  ⟨r.1, r.2.1, r.2.2⟩

/-- `size()`: `data.length`. -/
def size (d : TimeWindowDeque) : ℕ := d.data.length

/-- `getSum()`: the `sum` field. -/
def getSum (d : TimeWindowDeque) : ℚ := d.sum

/-- `getLatestPrice()`: the last element's price, or `null` (= `none`) when
empty. -/
def getLatestPrice (d : TimeWindowDeque) : Option ℚ :=
  (d.data.getLast?).map PriceData.price

/-- `getAverage()`: `sum / size` when non-empty, else `null`. -/
def getAverage (d : TimeWindowDeque) : Option ℚ :=
  if 0 < d.size then some (d.sum / d.size) else none

/-- `getHistory()`: a copy of `data`. -/
def getHistory (d : TimeWindowDeque) : List PriceData := d.data

/-- `getValues()`: the prices of `data`, in order. -/
def getValues (d : TimeWindowDeque) : List ℚ := d.data.map PriceData.price

/-- `getExpiredValues()`: a copy of `expiredData`. -/
def getExpiredValues (d : TimeWindowDeque) : List PriceData := d.expiredData

/-- Apply one `Op`. -/
def applyOp (d : TimeWindowDeque) : Op → TimeWindowDeque
  | .push p t => d.push p t
  | .expire c => d.expire c

/-- Apply a sequence of operations, first element first. -/
def applyOps (d : TimeWindowDeque) (ops : List Op) : TimeWindowDeque :=
  ops.foldl applyOp d

end TimeWindowDeque

end ArrayImpl

namespace CircularImpl

/-- The `CircularDeque<PriceData>` ring buffer (file `Time-Window-Deque.ts`):
`buffer` is the backing JS array of length `capacity` (cells hold
`undefined` = `none` when empty), `head` the index of the logically first
element, `tail` the index one past the logically last element, `size` the
element count. -/
structure CircularDeque where
  buffer : List (Option PriceData)
  head : ℕ
  tail : ℕ
  size : ℕ
  capacity : ℕ
deriving DecidableEq, Repr

namespace CircularDeque

/-- `new CircularDeque(capacity)`: capacity clamped to at least 1
(`Math.max(1, capacity)`), buffer of that length filled with `undefined`.
JS `capacity` is a number; we take an integer and clamp. -/
def new (capacity : ℤ) : CircularDeque :=
  let cap : ℕ := (max 1 capacity).toNat
  ⟨List.replicate cap none, 0, 0, 0, cap⟩

/-- `_grow()`: double the capacity, copy the live elements to positions
`0 .. size-1` of the new buffer (the remaining cells are `undefined`), reset
`head := 0`, `tail := size`. -/
def grow (d : CircularDeque) : CircularDeque :=
  let newCapacity := d.capacity * 2
  let newBuffer := (List.range newCapacity).map (fun i =>
    if i < d.size then d.buffer.getD ((d.head + i) % d.capacity) none else none)
  ⟨newBuffer, 0, d.size, d.size, newCapacity⟩

/-- `push(value)`: grow first when full, then write at `tail`, advance `tail`
modulo the (possibly new) capacity, and increment `size`. -/
def push (d : CircularDeque) (value : PriceData) : CircularDeque :=
  let d := if d.size = d.capacity then d.grow else d
  { d with buffer := d.buffer.set d.tail (some value),
           tail := (d.tail + 1) % d.capacity,
           size := d.size + 1 }

/-- `shift()`: remove and return the first element; `undefined` (= `none`)
when empty.  The removed cell is cleared to `undefined`. -/
def shift (d : CircularDeque) : Option PriceData × CircularDeque :=
  if d.size = 0 then (none, d)
  else
    let value := d.buffer.getD d.head none
    (value, { d with buffer := d.buffer.set d.head none,
                     head := (d.head + 1) % d.capacity,
                     size := d.size - 1 })

/-- `peekFirst()`: the first element without removing it. -/
def peekFirst (d : CircularDeque) : Option PriceData :=
  if d.size = 0 then none else d.buffer.getD d.head none

/-- `peekLast()`: the last element without removing it.  JS computes the index
as `(tail - 1 + capacity) % capacity`; since `capacity ≥ 1` in every
constructed deque, this equals `(tail + capacity - 1) % capacity`, which is
well defined over `ℕ`. -/
def peekLast (d : CircularDeque) : Option PriceData :=
  if d.size = 0 then none
  else d.buffer.getD ((d.tail + d.capacity - 1) % d.capacity) none

/-- `toArray()`: the live elements `buffer[(head+i) % capacity]` for
`i = 0 .. size-1`, in logical order.  The JS loop pushes
`this.buffer[index]!`; under the representation invariant every such cell is
occupied, so collecting the occupied cells (`filterMap id`) is the faithful
rendering. -/
def toArray (d : CircularDeque) : List PriceData :=
  (List.range d.size).filterMap (fun i => d.buffer.getD ((d.head + i) % d.capacity) none)

end CircularDeque

/-- The circular-buffer `TimeWindowDeque` (file `Time-Window-Deque.ts`). -/
structure TimeWindowDeque where
  data : CircularDeque
  sum : ℚ
  expiredData : List PriceData
  capacity : ℕ
deriving DecidableEq, Repr

namespace TimeWindowDeque

/-- `new TimeWindowDeque(initialCapacity = 32)`: clamp the capacity to at
least 1 and allocate the internal circular deque. -/
def new (initialCapacity : ℤ) : TimeWindowDeque :=
  let cap : ℕ := (max 1 initialCapacity).toNat
  ⟨CircularDeque.new cap, 0, [], cap⟩

/-- `push(price, timestamp)`: push `{price, timestamp}` onto the deque and add
`price` to `sum`. -/
def push (d : TimeWindowDeque) (price : ℚ) (timestamp : ℤ) : TimeWindowDeque :=
  { d with data := d.data.push ⟨price, timestamp⟩, sum := d.sum + price }

/-- The `while` loop of `expire(cutoff)`: while the deque is non-empty, look
at `peekFirst()`; stop if it is `undefined` or its timestamp is `≥ cutoff`;
otherwise `shift()` it off, subtract its price and append it to the expired
history.  The shifted value equals `peekFirst()` (both read
`buffer[head]`), so the removed sample is `first`. -/
def expireAux (cutoff : ℤ) (data : CircularDeque) (sum : ℚ)
    (expired : List PriceData) : CircularDeque × ℚ × List PriceData :=
  if _h : data.size = 0 then (data, sum, expired)
  else
    match data.peekFirst with
    | none => (data, sum, expired)
    | some first =>
      if cutoff ≤ first.timestamp then (data, sum, expired)
      else
        expireAux cutoff data.shift.2 (sum - first.price) (expired ++ [first])
termination_by data.size
decreasing_by simp [CircularDeque.shift, _h]; omega

/-- `expire(cutoff)` of the circular implementation. -/
def expire (d : TimeWindowDeque) (cutoff : ℤ) : TimeWindowDeque :=
  let r := expireAux cutoff d.data d.sum d.expiredData
  ⟨r.1, r.2.1, r.2.2, d.capacity⟩

/-- `size()`: `data.size()`. -/
def size (d : TimeWindowDeque) : ℕ := d.data.size

/-- `getSum()`: the `sum` field. -/
def getSum (d : TimeWindowDeque) : ℚ := d.sum

/-- `getLatestPrice()`: `peekLast()`'s price, or `null` when absent (a
`PriceData` object is always truthy in JS, so `last ? last.price : null`
tests presence). -/
def getLatestPrice (d : TimeWindowDeque) : Option ℚ :=
  (d.data.peekLast).map PriceData.price

/-- `getAverage()`: `sum / size` when `size > 0`, else `null`. -/
def getAverage (d : TimeWindowDeque) : Option ℚ :=
  if 0 < d.size then some (d.sum / d.size) else none

/-- `getHistory()`: `data.toArray()`. -/
def getHistory (d : TimeWindowDeque) : List PriceData := d.data.toArray

/-- `getValues()`: `data.toArray().map(entry => entry.price)`. -/
def getValues (d : TimeWindowDeque) : List ℚ := d.data.toArray.map PriceData.price

/-- `getExpiredValues()`: a copy of `expiredData`. -/
def getExpiredValues (d : TimeWindowDeque) : List PriceData := d.expiredData

/-- Apply one `Op`. -/
def applyOp (d : TimeWindowDeque) : Op → TimeWindowDeque
  | .push p t => d.push p t
  | .expire c => d.expire c

/-- Apply a sequence of operations, first element first. -/
def applyOps (d : TimeWindowDeque) (ops : List Op) : TimeWindowDeque :=
  ops.foldl applyOp d

end TimeWindowDeque

/-! State-passing renderings of the query methods.  In TypeScript every method
receives `this` and may assign to its fields; a query method is pure exactly
when its body contains no assignment.  To make that checkable we re-express
each query as `state → result × state`, translating the body statement by
statement; none of the seven query bodies assigns a field, so each returns
`this` unchanged. -/

namespace TimeWindowDeque

/-- `size()` as a state transformer. -/
def sizeM (d : TimeWindowDeque) : ℕ × TimeWindowDeque := (d.data.size, d)

/-- `getSum()` as a state transformer. -/
def getSumM (d : TimeWindowDeque) : ℚ × TimeWindowDeque := (d.sum, d)

/-- `getLatestPrice()` as a state transformer. -/
def getLatestPriceM (d : TimeWindowDeque) : Option ℚ × TimeWindowDeque :=
  ((d.data.peekLast).map PriceData.price, d)

/-- `getAverage()` as a state transformer. -/
def getAverageM (d : TimeWindowDeque) : Option ℚ × TimeWindowDeque :=
  (if 0 < d.data.size then some (d.sum / d.data.size) else none, d)

/-- `getHistory()` as a state transformer: allocates the `toArray` copy. -/
def getHistoryM (d : TimeWindowDeque) : List PriceData × TimeWindowDeque :=
  (d.data.toArray, d)

/-- `getValues()` as a state transformer. -/
def getValuesM (d : TimeWindowDeque) : List ℚ × TimeWindowDeque :=
  (d.data.toArray.map PriceData.price, d)

/-- `getExpiredValues()` as a state transformer: allocates the spread copy. -/
def getExpiredValuesM (d : TimeWindowDeque) : List PriceData × TimeWindowDeque :=
  (d.expiredData, d)

end TimeWindowDeque

end CircularImpl

/-! A refined model of JS numbers for the claim about non-finite inputs:
finite values are kept exact, and the non-finite values NaN, `+Infinity`,
`-Infinity` are explicit.  Only addition is needed (for `sum += price`). -/

/-- A JS `number`: an exact finite value or one of the non-finite values. -/
inductive JSNum where
  | finite (q : ℚ)
  | nan
  | posInf
  | negInf
deriving DecidableEq, Repr

namespace JSNum

/-- `Number.isFinite`. -/
def isFinite : JSNum → Bool
  | finite _ => true
  | _ => false

/-- JS `+` on numbers: NaN absorbs, opposite infinities give NaN, an infinity
absorbs finite values; finite addition is modelled exactly (float64 rounding
is outside this model). -/
def add : JSNum → JSNum → JSNum
  | nan, _ => nan
  | _, nan => nan
  | posInf, negInf => nan
  | negInf, posInf => nan
  | posInf, _ => posInf
  | _, posInf => posInf
  | negInf, _ => negInf
  | _, negInf => negInf
  | finite a, finite b => finite (a + b)

end JSNum

namespace JSModel

/-- A price sample whose components are full JS numbers. -/
structure PriceData where
  price : JSNum
  timestamp : JSNum
deriving DecidableEq, Repr

/-- The array-based `TimeWindowDeque` state over full JS numbers. -/
structure TimeWindowDeque where
  data : List PriceData
  sum : JSNum
  expiredData : List PriceData
deriving DecidableEq, Repr

/-- A freshly-constructed deque: `data = []`, `sum = 0`, `expiredData = []`. -/
def TimeWindowDeque.new : TimeWindowDeque := ⟨[], .finite 0, []⟩

/-- `push(price, timestamp)` over full JS numbers, with a TS `throw` modelled
as `Except.error`.  The source body is
`const newData = { price, timestamp }; this.data.push(newData); this.sum += price;`
— it contains no conditional and no `throw`, so the translation
unconditionally returns `.ok` of the updated state. -/
def TimeWindowDeque.push (d : TimeWindowDeque) (price timestamp : JSNum) :
    Except String TimeWindowDeque :=
  .ok { d with data := d.data ++ [⟨price, timestamp⟩], sum := d.sum.add price }

end JSModel

/-! ## Representation invariant of the circular deque

`Inv d l` says the ring buffer `d` represents the logical list `l`: the
cells `buffer[(head+i) % capacity]` for `i < size` hold the elements of `l`
in order, with the index bookkeeping consistent. -/

namespace CircularImpl.CircularDeque

/-- The ring-buffer representation invariant together with the abstraction
to the logical list `l`. -/
structure Inv (d : CircularDeque) (l : List PriceData) : Prop where
  cap_pos : 0 < d.capacity
  buf_len : d.buffer.length = d.capacity
  size_eq : d.size = l.length
  size_le : d.size ≤ d.capacity
  head_lt : d.head < d.capacity
  tail_eq : d.tail = (d.head + d.size) % d.capacity
  elems : ∀ i, i < l.length → d.buffer.getD ((d.head + i) % d.capacity) none = l[i]?

/-- Two offsets below the capacity that land on the same ring cell are
equal. -/
lemma offset_inj {cap h i j : ℕ} (hi : i < cap) (hj : j < cap)
    (e : (h + i) % cap = (h + j) % cap) : i = j := by
  have e' : i % cap = j % cap :=
    Nat.ModEq.add_left_cancel' h (show (h + i) % cap = (h + j) % cap from e)
  rwa [Nat.mod_eq_of_lt hi, Nat.mod_eq_of_lt hj] at e'

/-- A fresh deque represents the empty list. -/
lemma inv_new (capacity : ℤ) : Inv (new capacity) [] := by
  have hcap : 0 < (max 1 capacity).toNat := by omega
  refine ⟨?_, ?_, rfl, ?_, ?_, ?_, ?_⟩
  · show 0 < (max 1 capacity).toNat
    omega
  · show (List.replicate (max 1 capacity).toNat (none : Option PriceData)).length
      = (max 1 capacity).toNat
    simp
  · show 0 ≤ (max 1 capacity).toNat
    omega
  · show 0 < (max 1 capacity).toNat
    omega
  · show 0 = (0 + 0) % (max 1 capacity).toNat
    simp
  · intro i hi
    simp at hi

/-- `_grow` preserves the representation. -/
lemma inv_grow {d : CircularDeque} {l : List PriceData} (hd : Inv d l) :
    Inv d.grow l := by
  obtain ⟨cap_pos, buf_len, size_eq, size_le, head_lt, tail_eq, elems⟩ := hd
  have hsz : d.size < d.capacity * 2 := by omega
  refine ⟨?_, ?_, size_eq, ?_, ?_, ?_, ?_⟩
  · show 0 < d.capacity * 2
    omega
  · show ((List.range (d.capacity * 2)).map _).length = d.capacity * 2
    simp
  · show d.size ≤ d.capacity * 2
    omega
  · show 0 < d.capacity * 2
    omega
  · show d.size = (0 + d.size) % (d.capacity * 2)
    rw [Nat.zero_add, Nat.mod_eq_of_lt hsz]
  · intro i hi
    show ((List.range (d.capacity * 2)).map
        (fun j => if j < d.size then d.buffer.getD ((d.head + j) % d.capacity) none
          else none)).getD ((0 + i) % (d.capacity * 2)) none = l[i]?
    have hi2 : i < d.capacity * 2 := by omega
    rw [Nat.zero_add, Nat.mod_eq_of_lt hi2, List.getD_eq_getElem?_getD,
      List.getElem?_map, List.getElem?_range hi2]
    simp only [Option.map_some', Option.getD_some]
    rw [if_pos (show i < d.size by omega)]
    exact elems i hi

/-- `push` appends the value to the represented list. -/
lemma inv_push {d : CircularDeque} {l : List PriceData} (hd : Inv d l)
    (v : PriceData) : Inv (d.push v) (l ++ [v]) := by
  -- after the conditional grow, the deque still represents `l` and has room
  have step : ∀ e : CircularDeque, Inv e l → e.size < e.capacity →
      Inv ⟨e.buffer.set e.tail (some v), e.head, (e.tail + 1) % e.capacity,
        e.size + 1, e.capacity⟩ (l ++ [v]) := by
    intro e he hroom
    obtain ⟨cap_pos, buf_len, size_eq, size_le, head_lt, tail_eq, elems⟩ := he
    have tail_lt : e.tail < e.capacity := by
      rw [tail_eq]; exact Nat.mod_lt _ cap_pos
    refine ⟨cap_pos, ?_, ?_, ?_, head_lt, ?_, ?_⟩
    · show (e.buffer.set e.tail (some v)).length = e.capacity
      simp [buf_len]
    · show e.size + 1 = (l ++ [v]).length
      simp [size_eq]
    · show e.size + 1 ≤ e.capacity
      omega
    · show (e.tail + 1) % e.capacity = (e.head + (e.size + 1)) % e.capacity
      rw [tail_eq, Nat.mod_add_mod, ← Nat.add_assoc]
    · intro i hi
      show (e.buffer.set e.tail (some v)).getD ((e.head + i) % e.capacity) none
        = (l ++ [v])[i]?
      simp only [List.length_append, List.length_singleton] at hi
      rcases Nat.lt_or_ge i l.length with hil | hil
      · -- old elements: the write at `tail` does not touch their cells
        have hne : e.tail ≠ (e.head + i) % e.capacity := by
          intro hcol
        -- `tail` is offset `size`, the element is offset `i < size`
          rw [tail_eq] at hcol
          have := offset_inj (by omega) (by omega) hcol.symm
          omega
        rw [List.getD_eq_getElem?_getD, List.getElem?_set_ne hne,
          ← List.getD_eq_getElem?_getD, elems i hil,
          List.getElem?_append_left hil]
      · -- the new element sits at the old `tail`
        have hieq : i = l.length := by omega
        have hcell : (e.head + i) % e.capacity = e.tail := by
          rw [tail_eq, size_eq, hieq]
        rw [hcell, List.getD_eq_getElem?_getD,
          List.getElem?_set_self (show e.tail < e.buffer.length by omega)]
        rw [hieq]
        simp
  by_cases hfull : d.size = d.capacity
  · have hg := inv_grow hd
    have hroom : d.grow.size < d.grow.capacity := by
      have := hd.cap_pos
      simp only [grow]
      omega
    simpa [push, hfull] using step d.grow hg hroom
  · have hroom : d.size < d.capacity := Nat.lt_of_le_of_ne hd.size_le hfull
    simpa [push, hfull] using step d hd hroom

/-- `shift` on an empty deque returns `undefined` and leaves it unchanged. -/
lemma shift_nil {d : CircularDeque} (hd : Inv d []) : d.shift = (none, d) := by
  have h0 : d.size = 0 := hd.size_eq
  simp [shift, h0]

/-- `shift` on a non-empty deque returns the logical head and represents the
tail afterwards. -/
lemma shift_cons {d : CircularDeque} {x : PriceData} {rest : List PriceData}
    (hd : Inv d (x :: rest)) : d.shift.1 = some x ∧ Inv d.shift.2 rest := by
  obtain ⟨cap_pos, buf_len, size_eq, size_le, head_lt, tail_eq, elems⟩ := hd
  have hsz : d.size ≠ 0 := by simp [size_eq]
  have hhead : d.buffer[d.head]?.getD none = some x := by
    have h0 := elems 0 (by simp)
    rw [Nat.add_zero, Nat.mod_eq_of_lt head_lt, List.getD_eq_getElem?_getD] at h0
    simpa using h0
  constructor
  · simp [shift, hsz, hhead]
  · simp only [shift, hsz, if_neg, dite_eq_ite, if_false]
    refine ⟨cap_pos, ?_, ?_, ?_, ?_, ?_, ?_⟩
    · show (d.buffer.set d.head none).length = d.capacity
      simp [buf_len]
    · show d.size - 1 = rest.length
      simp [size_eq]
    · show d.size - 1 ≤ d.capacity
      omega
    · show (d.head + 1) % d.capacity < d.capacity
      exact Nat.mod_lt _ cap_pos
    · show d.tail = ((d.head + 1) % d.capacity + (d.size - 1)) % d.capacity
      rw [tail_eq, Nat.mod_add_mod]
      congr 1
      omega
    · intro i hi
      show (d.buffer.set d.head none).getD
        (((d.head + 1) % d.capacity + i) % d.capacity) none = rest[i]?
      have hcell : ((d.head + 1) % d.capacity + i) % d.capacity
          = (d.head + (1 + i)) % d.capacity := by
        rw [Nat.mod_add_mod, Nat.add_assoc]
      have hlt : 1 + i < d.capacity := by
        simp only [List.length_cons] at size_eq
        omega
      have hne : d.head ≠ (d.head + (1 + i)) % d.capacity := by
        intro hcol
        have hcol' : (d.head + 0) % d.capacity = (d.head + (1 + i)) % d.capacity := by
          rwa [Nat.add_zero, Nat.mod_eq_of_lt head_lt]
        have := offset_inj (by omega) hlt hcol'
        omega
      rw [hcell, List.getD_eq_getElem?_getD, List.getElem?_set_ne hne,
        ← List.getD_eq_getElem?_getD,
        elems (1 + i) (by simp only [List.length_cons]; omega)]
      simp [Nat.add_comm 1 i]

/-- `peekFirst` returns the head of the represented list. -/
lemma peekFirst_eq {d : CircularDeque} {l : List PriceData} (hd : Inv d l) :
    d.peekFirst = l.head? := by
  obtain ⟨cap_pos, buf_len, size_eq, size_le, head_lt, tail_eq, elems⟩ := hd
  cases l with
  | nil => simp [peekFirst, size_eq]
  | cons x rest =>
    have hsz : d.size ≠ 0 := by simp [size_eq]
    have h0 := elems 0 (by simp)
    rw [Nat.add_zero, Nat.mod_eq_of_lt head_lt, List.getD_eq_getElem?_getD] at h0
    simp only [List.getElem?_cons_zero] at h0
    simp [peekFirst, hsz, h0]

/-- `peekLast` returns the last element of the represented list. -/
lemma peekLast_eq {d : CircularDeque} {l : List PriceData} (hd : Inv d l) :
    d.peekLast = l.getLast? := by
  obtain ⟨cap_pos, buf_len, size_eq, size_le, head_lt, tail_eq, elems⟩ := hd
  cases l with
  | nil => simp [peekLast, size_eq]
  | cons x rest =>
    have hsz : d.size ≠ 0 := by simp [size_eq]
    have hlen : d.size = rest.length + 1 := by simpa using size_eq
    -- the JS index (tail - 1 + capacity) % capacity is offset size - 1
    have hidx : (d.tail + d.capacity - 1) % d.capacity
        = (d.head + (d.size - 1)) % d.capacity := by
      rw [tail_eq]
      have h1 : (d.head + d.size) % d.capacity + d.capacity - 1
          = (d.head + d.size) % d.capacity + (d.capacity - 1) := by omega
      rw [h1, Nat.mod_add_mod]
      have h2 : d.head + d.size + (d.capacity - 1)
          = d.head + (d.size - 1) + d.capacity := by omega
      rw [h2, Nat.add_mod_right]
    have := elems (d.size - 1) (by omega)
    rw [peekLast, if_neg hsz, hidx, this, List.getLast?_eq_getElem?]
    congr 1
    simp only [List.length_cons]
    omega

/-- `filterMap` over `range n` of a function that is `some` of the entries of
a list of length `n` reproduces that list. -/
lemma filterMap_range_eq {α : Type} (l : List α) (f : ℕ → Option α)
    (hf : ∀ i, i < l.length → f i = l[i]?) :
    (List.range l.length).filterMap f = l := by
  induction l using List.reverseRecOn with
  | nil => simp
  | append_singleton l' a ih =>
    rw [List.length_append, List.length_singleton, List.range_succ,
      List.filterMap_append]
    have h1 : (List.range l'.length).filterMap f = l' := by
      apply ih
      intro i hi
      rw [hf i (by simp; omega), List.getElem?_append_left hi]
    have h2 : f l'.length = some a := by
      rw [hf l'.length (by simp)]
      simp
    rw [h1]
    simp [h2]

/-- `toArray` returns exactly the represented list. -/
lemma toArray_eq {d : CircularDeque} {l : List PriceData} (hd : Inv d l) :
    d.toArray = l := by
  rw [toArray, hd.size_eq]
  exact filterMap_range_eq l _ (fun i hi => hd.elems i hi)

end CircularImpl.CircularDeque

/-! ## Array-implementation lemmas -/

namespace ArrayImpl.TimeWindowDeque

/-- The spec's sum invariant, stated for the array implementation:
the `sum` field equals the full-scan sum of the live prices. -/
def SumInv (d : TimeWindowDeque) : Prop :=
  d.sum = (d.data.map PriceData.price).sum

/-- The expire loop keeps the running sum equal to the full-scan sum. -/
lemma expireAux_sum (cutoff : ℤ) :
    ∀ (l : List PriceData) (sum : ℚ) (expired : List PriceData),
    sum = (l.map PriceData.price).sum →
    (expireAux cutoff l sum expired).2.1
      = (((expireAux cutoff l sum expired).1.map PriceData.price)).sum := by
  intro l
  induction l with
  | nil => intro sum expired h; simpa [expireAux] using h
  | cons x rest ih =>
    intro sum expired h
    by_cases hx : x.timestamp < cutoff
    · rw [expireAux, if_pos hx]
      apply ih
      simp only [List.map_cons, List.sum_cons] at h
      rw [h]; ring
    · rw [expireAux, if_neg hx]
      exact h

/-- `push` preserves the sum invariant. -/
lemma sumInv_push {d : TimeWindowDeque} (hd : SumInv d) (p : ℚ) (t : ℤ) :
    SumInv (d.push p t) := by
  unfold SumInv at hd ⊢
  simp [push, hd]

/-- `expire` preserves the sum invariant. -/
lemma sumInv_expire {d : TimeWindowDeque} (hd : SumInv d) (cutoff : ℤ) :
    SumInv (d.expire cutoff) :=
  expireAux_sum cutoff d.data d.sum d.expiredData hd

/-- Operation sequences preserve the sum invariant. -/
lemma sumInv_applyOps' {d : TimeWindowDeque} (hd : SumInv d) (ops : List Op) :
    SumInv (applyOps d ops) := by
  induction ops generalizing d with
  | nil => simpa [applyOps] using hd
  | cons op rest ih =>
    rw [applyOps, List.foldl_cons]
    cases op with
    | push p t => exact ih (sumInv_push hd p t)
    | expire c => exact ih (sumInv_expire hd c)

/-- Every state reachable from a fresh deque satisfies the sum invariant. -/
lemma sumInv_applyOps (ops : List Op) : SumInv (applyOps new ops) :=
  sumInv_applyOps' (by simp [SumInv, new]) ops

end ArrayImpl.TimeWindowDeque

namespace ArrayImpl.TimeWindowDeque

/-- Behaviour of the expire loop on a timestamp-sorted live list: it splits
the list into an evicted prefix (all `< cutoff`, appended to the expired
history in order) and a remainder (all `≥ cutoff`). -/
lemma expireAux_split (cutoff : ℤ) :
    ∀ (l : List PriceData) (sum : ℚ) (expired : List PriceData),
    l.Pairwise (fun a b => a.timestamp ≤ b.timestamp) →
    ∃ evicted,
      l = evicted ++ (expireAux cutoff l sum expired).1 ∧
      (expireAux cutoff l sum expired).2.2 = expired ++ evicted ∧
      (∀ s ∈ evicted, s.timestamp < cutoff) ∧
      (∀ s ∈ (expireAux cutoff l sum expired).1, cutoff ≤ s.timestamp) := by
  intro l
  induction l with
  | nil =>
    intro sum expired _
    exact ⟨[], by simp [expireAux]⟩
  | cons x rest ih =>
    intro sum expired hsorted
    rw [List.pairwise_cons] at hsorted
    obtain ⟨hx, hrest⟩ := hsorted
    by_cases hcut : x.timestamp < cutoff
    · obtain ⟨ev, h1, h2, h3, h4⟩ :=
        ih (sum - x.price) (expired ++ [x]) hrest
      refine ⟨x :: ev, ?_, ?_, ?_, ?_⟩
      · rw [expireAux, if_pos hcut]
        simpa using h1
      · rw [expireAux, if_pos hcut]
        simpa using h2
      · intro s hs
        rcases List.mem_cons.1 hs with rfl | hsv
        · exact hcut
        · exact h3 s hsv
      · intro s hs
        rw [expireAux, if_pos hcut] at hs
        exact h4 s hs
    · refine ⟨[], ?_, ?_, by simp, ?_⟩
      · rw [expireAux, if_neg hcut]
        simp
      · rw [expireAux, if_neg hcut]
        simp
      · intro s hs
        rw [expireAux, if_neg hcut] at hs
        rcases List.mem_cons.1 hs with rfl | hsv
        · omega
        · exact le_trans (by omega) (hx s hsv)

/-- Applying only pushes appends exactly the pushed samples, in order. -/
lemma applyOps_pushes (ps : List (ℚ × ℤ)) :
    ∀ d : TimeWindowDeque,
    (applyOps d (ps.map (fun pt => Op.push pt.1 pt.2))).data
      = d.data ++ ps.map (fun pt => ⟨pt.1, pt.2⟩) := by
  induction ps with
  | nil => intro d; simp [applyOps]
  | cons pt rest ih =>
    intro d
    rw [List.map_cons, applyOps, List.foldl_cons]
    have := ih (d.push pt.1 pt.2)
    rw [applyOps] at this
    rw [show applyOp d (Op.push pt.1 pt.2) = d.push pt.1 pt.2 from rfl, this]
    simp [push]

end ArrayImpl.TimeWindowDeque

/-! ## Refinement: the circular-buffer deque simulates the array deque -/

namespace CircularImpl.TimeWindowDeque

/-- The simulation relation: the circular state represents the same abstract
contents as the array state. -/
def Abs (a : ArrayImpl.TimeWindowDeque) (c : TimeWindowDeque) : Prop :=
  c.data.Inv a.data ∧ c.sum = a.sum ∧ c.expiredData = a.expiredData

/-- Fresh deques are related, for every initial capacity. -/
lemma abs_new (capacity : ℤ) : Abs ArrayImpl.TimeWindowDeque.new (new capacity) :=
  ⟨CircularDeque.inv_new _, rfl, rfl⟩

/-- `push` preserves the simulation. -/
lemma abs_push {a : ArrayImpl.TimeWindowDeque} {c : TimeWindowDeque}
    (h : Abs a c) (p : ℚ) (t : ℤ) : Abs (a.push p t) (c.push p t) := by
  obtain ⟨hinv, hsum, hexp⟩ := h
  exact ⟨CircularDeque.inv_push hinv _, by simp [push, ArrayImpl.TimeWindowDeque.push, hsum],
    by simp [push, ArrayImpl.TimeWindowDeque.push, hexp]⟩

/-- The two expire loops run in lock-step over the represented list. -/
lemma expireAux_abs (cutoff : ℤ) :
    ∀ (l : List PriceData) (data : CircularDeque) (sum : ℚ)
      (expired : List PriceData), data.Inv l →
    (expireAux cutoff data sum expired).1.Inv
        (ArrayImpl.TimeWindowDeque.expireAux cutoff l sum expired).1 ∧
    (expireAux cutoff data sum expired).2
        = (ArrayImpl.TimeWindowDeque.expireAux cutoff l sum expired).2 := by
  intro l
  induction l with
  | nil =>
    intro data sum expired hinv
    have h0 : data.size = 0 := hinv.size_eq
    rw [expireAux, ArrayImpl.TimeWindowDeque.expireAux]
    simp only [h0, dif_pos]
    exact ⟨hinv, trivial⟩
  | cons x rest ih =>
    intro data sum expired hinv
    have hsz : ¬ data.size = 0 := by simp [hinv.size_eq]
    have hpf : data.peekFirst = some x := by
      rw [CircularDeque.peekFirst_eq hinv]; rfl
    obtain ⟨hshift1, hshift2⟩ := CircularDeque.shift_cons hinv
    by_cases hcut : cutoff ≤ x.timestamp
    · rw [expireAux, ArrayImpl.TimeWindowDeque.expireAux]
      simp only [hsz, dif_neg, not_false_iff, hpf, if_pos hcut,
        if_neg (show ¬ x.timestamp < cutoff by omega)]
      exact ⟨hinv, trivial⟩
    · rw [expireAux, ArrayImpl.TimeWindowDeque.expireAux]
      simp only [hsz, dif_neg, not_false_iff, hpf, if_neg hcut,
        if_pos (show x.timestamp < cutoff by omega)]
      exact ih data.shift.2 (sum - x.price) (expired ++ [x]) hshift2

/-- `expire` preserves the simulation. -/
lemma abs_expire {a : ArrayImpl.TimeWindowDeque} {c : TimeWindowDeque}
    (h : Abs a c) (cutoff : ℤ) : Abs (a.expire cutoff) (c.expire cutoff) := by
  obtain ⟨hinv, hsum, hexp⟩ := h
  obtain ⟨h1, h2⟩ := expireAux_abs cutoff a.data c.data c.sum c.expiredData hinv
  refine ⟨?_, ?_, ?_⟩
  · show (expireAux cutoff c.data c.sum c.expiredData).1.Inv
        (ArrayImpl.TimeWindowDeque.expireAux cutoff a.data a.sum a.expiredData).1
    rw [← hsum, ← hexp]
    exact h1
  · show (expireAux cutoff c.data c.sum c.expiredData).2.1
        = (ArrayImpl.TimeWindowDeque.expireAux cutoff a.data a.sum a.expiredData).2.1
    rw [← hsum, ← hexp, h2]
  · show (expireAux cutoff c.data c.sum c.expiredData).2.2
        = (ArrayImpl.TimeWindowDeque.expireAux cutoff a.data a.sum a.expiredData).2.2
    rw [← hsum, ← hexp, h2]

/-- Every operation preserves the simulation. -/
lemma abs_applyOp {a : ArrayImpl.TimeWindowDeque} {c : TimeWindowDeque}
    (h : Abs a c) (op : Op) : Abs (a.applyOp op) (c.applyOp op) := by
  cases op with
  | push p t => exact abs_push h p t
  | expire cut => exact abs_expire h cut

/-- Operation sequences preserve the simulation. -/
lemma abs_applyOps {a : ArrayImpl.TimeWindowDeque} {c : TimeWindowDeque}
    (h : Abs a c) (ops : List Op) : Abs (a.applyOps ops) (c.applyOps ops) := by
  induction ops generalizing a c with
  | nil => simpa [applyOps, ArrayImpl.TimeWindowDeque.applyOps] using h
  | cons op rest ih =>
    rw [applyOps, ArrayImpl.TimeWindowDeque.applyOps, List.foldl_cons, List.foldl_cons]
    exact ih (abs_applyOp h op)

/-- Related states answer every query identically. -/
lemma abs_queries {a : ArrayImpl.TimeWindowDeque} {c : TimeWindowDeque}
    (h : Abs a c) :
    c.size = a.size ∧ c.getSum = a.getSum ∧
    c.getLatestPrice = a.getLatestPrice ∧ c.getAverage = a.getAverage ∧
    c.getHistory = a.getHistory ∧ c.getValues = a.getValues ∧
    c.getExpiredValues = a.getExpiredValues := by
  obtain ⟨hinv, hsum, hexp⟩ := h
  have hsize : c.size = a.size := by
    rw [size, ArrayImpl.TimeWindowDeque.size, hinv.size_eq]
  refine ⟨hsize, hsum, ?_, ?_, ?_, ?_, hexp⟩
  · rw [getLatestPrice, ArrayImpl.TimeWindowDeque.getLatestPrice,
      CircularDeque.peekLast_eq hinv]
  · rw [getAverage, ArrayImpl.TimeWindowDeque.getAverage, hsize, hsum]
  · rw [getHistory, ArrayImpl.TimeWindowDeque.getHistory,
      CircularDeque.toArray_eq hinv]
  · rw [getValues, ArrayImpl.TimeWindowDeque.getValues,
      CircularDeque.toArray_eq hinv]

end CircularImpl.TimeWindowDeque

namespace CircularImpl.TimeWindowDeque

/-- After the expire loop finishes, its exit condition holds: either the
deque is empty, or `peekFirst` is `undefined`, or the first timestamp is
`≥ cutoff`. -/
lemma expireAux_stop (cutoff : ℤ) :
    ∀ (n : ℕ) (data : CircularDeque) (sum : ℚ) (expired : List PriceData),
    data.size ≤ n →
    (expireAux cutoff data sum expired).1.size = 0 ∨
    (expireAux cutoff data sum expired).1.peekFirst = none ∨
    ∃ f, (expireAux cutoff data sum expired).1.peekFirst = some f ∧
      cutoff ≤ f.timestamp := by
  intro n
  induction n with
  | zero =>
    intro data sum expired hle
    have h0 : data.size = 0 := by omega
    rw [expireAux, dif_pos h0]
    exact Or.inl h0
  | succ n ih =>
    intro data sum expired hle
    by_cases h0 : data.size = 0
    · rw [expireAux, dif_pos h0]
      exact Or.inl h0
    · rcases hpf : data.peekFirst with _ | f
      · rw [expireAux, dif_neg h0]
        simp only [hpf]
        exact Or.inr (Or.inl trivial)
      · by_cases hcut : cutoff ≤ f.timestamp
        · rw [expireAux, dif_neg h0]
          simp only [hpf, if_pos hcut]
          exact Or.inr (Or.inr ⟨f, rfl, hcut⟩)
        · rw [expireAux, dif_neg h0]
          simp only [hpf, if_neg hcut]
          apply ih
          have : data.shift.2.size = data.size - 1 := by
            simp [CircularDeque.shift, h0]
          omega

/-- When the loop's exit condition already holds, the expire loop does
nothing. -/
lemma expireAux_noop (cutoff : ℤ) (data : CircularDeque) (sum : ℚ)
    (expired : List PriceData)
    (h : data.size = 0 ∨ data.peekFirst = none ∨
      ∃ f, data.peekFirst = some f ∧ cutoff ≤ f.timestamp) :
    expireAux cutoff data sum expired = (data, sum, expired) := by
  rcases h with h0 | hpf | ⟨f, hpf, hcut⟩
  · rw [expireAux, dif_pos h0]
  · by_cases h0 : data.size = 0
    · rw [expireAux, dif_pos h0]
    · rw [expireAux, dif_neg h0]
      simp only [hpf]
  · by_cases h0 : data.size = 0
    · rw [expireAux, dif_pos h0]
    · rw [expireAux, dif_neg h0]
      simp only [hpf, if_pos hcut]

/-- `expire` is the identity when its loop exit condition already holds. -/
lemma expire_noop {e : TimeWindowDeque} {cutoff : ℤ}
    (h : e.data.size = 0 ∨ e.data.peekFirst = none ∨
      ∃ f, e.data.peekFirst = some f ∧ cutoff ≤ f.timestamp) :
    e.expire cutoff = e := by
  have hnoop := expireAux_noop cutoff e.data e.sum e.expiredData h
  show (⟨(expireAux cutoff e.data e.sum e.expiredData).1,
        (expireAux cutoff e.data e.sum e.expiredData).2.1,
        (expireAux cutoff e.data e.sum e.expiredData).2.2, e.capacity⟩ :
      TimeWindowDeque) = e
  rw [hnoop]

end CircularImpl.TimeWindowDeque

/-! ## The claims -/

open CircularImpl

/-- Claim C1: sum invariant — after every sequence of push and expire
operations on a freshly constructed circular-buffer `TimeWindowDeque` (any
initial capacity), `getSum()` returns exactly the sum of the values of all
currently-live samples. -/
theorem C1_sum_invariant (initialCapacity : ℤ) (ops : List Op) :
    (TimeWindowDeque.applyOps (TimeWindowDeque.new initialCapacity) ops).getSum
      = ((TimeWindowDeque.applyOps (TimeWindowDeque.new initialCapacity) ops).getValues).sum := by
  have habs := TimeWindowDeque.abs_applyOps (TimeWindowDeque.abs_new initialCapacity) ops
  obtain ⟨_, hsum, _, _, _, hvals, _⟩ := TimeWindowDeque.abs_queries habs
  rw [hsum, hvals]
  exact ArrayImpl.TimeWindowDeque.sumInv_applyOps ops

/-- Claim C3: refinement — the naive linear-storage `TimeWindowDeque` and the
circular-buffer `TimeWindowDeque` are observationally equivalent: for every
sequence of push and expire calls and every initial capacity of the circular
version, all seven query operations return the same results on both. -/
theorem C3_observational_equivalence (initialCapacity : ℤ) (ops : List Op) :
    (TimeWindowDeque.applyOps (TimeWindowDeque.new initialCapacity) ops).size
      = (ArrayImpl.TimeWindowDeque.applyOps ArrayImpl.TimeWindowDeque.new ops).size ∧
    (TimeWindowDeque.applyOps (TimeWindowDeque.new initialCapacity) ops).getSum
      = (ArrayImpl.TimeWindowDeque.applyOps ArrayImpl.TimeWindowDeque.new ops).getSum ∧
    (TimeWindowDeque.applyOps (TimeWindowDeque.new initialCapacity) ops).getLatestPrice
      = (ArrayImpl.TimeWindowDeque.applyOps ArrayImpl.TimeWindowDeque.new ops).getLatestPrice ∧
    (TimeWindowDeque.applyOps (TimeWindowDeque.new initialCapacity) ops).getAverage
      = (ArrayImpl.TimeWindowDeque.applyOps ArrayImpl.TimeWindowDeque.new ops).getAverage ∧
    (TimeWindowDeque.applyOps (TimeWindowDeque.new initialCapacity) ops).getHistory
      = (ArrayImpl.TimeWindowDeque.applyOps ArrayImpl.TimeWindowDeque.new ops).getHistory ∧
    (TimeWindowDeque.applyOps (TimeWindowDeque.new initialCapacity) ops).getValues
      = (ArrayImpl.TimeWindowDeque.applyOps ArrayImpl.TimeWindowDeque.new ops).getValues ∧
    (TimeWindowDeque.applyOps (TimeWindowDeque.new initialCapacity) ops).getExpiredValues
      = (ArrayImpl.TimeWindowDeque.applyOps ArrayImpl.TimeWindowDeque.new ops).getExpiredValues :=
  TimeWindowDeque.abs_queries
    (TimeWindowDeque.abs_applyOps (TimeWindowDeque.abs_new initialCapacity) ops)

/-- Claim C2: expire postcondition — on every reachable circular-buffer
deque whose live samples are in non-decreasing timestamp order, after
`expire(cutoff)` every remaining live sample has timestamp `≥ cutoff`, the
samples evicted by the call (the prefix `evicted` of the previous live list)
all have timestamp `< cutoff`, and they are appended to the expired history
in eviction order, oldest first. -/
theorem C2_expire_postcondition (initialCapacity : ℤ) (ops : List Op) (cutoff : ℤ)
    (hsorted : ((TimeWindowDeque.applyOps (TimeWindowDeque.new initialCapacity) ops).getHistory).Pairwise
      (fun a b => a.timestamp ≤ b.timestamp)) :
    (∀ s ∈ ((TimeWindowDeque.applyOps (TimeWindowDeque.new initialCapacity) ops).expire cutoff).getHistory,
      cutoff ≤ s.timestamp) ∧
    ∃ evicted,
      (TimeWindowDeque.applyOps (TimeWindowDeque.new initialCapacity) ops).getHistory
        = evicted ++ ((TimeWindowDeque.applyOps (TimeWindowDeque.new initialCapacity) ops).expire cutoff).getHistory ∧
      ((TimeWindowDeque.applyOps (TimeWindowDeque.new initialCapacity) ops).expire cutoff).getExpiredValues
        = (TimeWindowDeque.applyOps (TimeWindowDeque.new initialCapacity) ops).getExpiredValues ++ evicted ∧
      ∀ s ∈ evicted, s.timestamp < cutoff := by
  have habs := TimeWindowDeque.abs_applyOps (TimeWindowDeque.abs_new initialCapacity) ops
  have habs' := TimeWindowDeque.abs_expire habs cutoff
  obtain ⟨_, _, _, _, hhist, _, hexpv⟩ := TimeWindowDeque.abs_queries habs
  obtain ⟨_, _, _, _, hhist', _, hexpv'⟩ := TimeWindowDeque.abs_queries habs'
  rw [hhist] at hsorted
  obtain ⟨evicted, h1, h2, h3, h4⟩ :=
    ArrayImpl.TimeWindowDeque.expireAux_split cutoff
      (ArrayImpl.TimeWindowDeque.applyOps ArrayImpl.TimeWindowDeque.new ops).data
      (ArrayImpl.TimeWindowDeque.applyOps ArrayImpl.TimeWindowDeque.new ops).sum
      (ArrayImpl.TimeWindowDeque.applyOps ArrayImpl.TimeWindowDeque.new ops).expiredData
      hsorted
  rw [hhist, hhist', hexpv, hexpv']
  exact ⟨h4, evicted, h1, h2, h3⟩

/-- Claim C4: growth transparency — pushing beyond the initial capacity
preserves logical order and all prior values: with capacity 4, pushing
100..104 at increasing timestamps gives `getValues() = [100,101,102,103,104]`
and `size() = 5`; and in general, for every initial capacity and every list
of pushes, `getValues()` lists all pushed values in push order. -/
theorem C4_growth_transparency :
    ((TimeWindowDeque.applyOps (TimeWindowDeque.new 4)
        [Op.push 100 0, Op.push 101 1, Op.push 102 2, Op.push 103 3, Op.push 104 4]).getValues
      = [100, 101, 102, 103, 104] ∧
     (TimeWindowDeque.applyOps (TimeWindowDeque.new 4)
        [Op.push 100 0, Op.push 101 1, Op.push 102 2, Op.push 103 3, Op.push 104 4]).size = 5) ∧
    ∀ (initialCapacity : ℤ) (ps : List (ℚ × ℤ)),
      (TimeWindowDeque.applyOps (TimeWindowDeque.new initialCapacity)
        (ps.map (fun pt => Op.push pt.1 pt.2))).getValues = ps.map Prod.fst := by
  refine ⟨⟨by decide, by decide⟩, ?_⟩
  intro initialCapacity ps
  have habs := TimeWindowDeque.abs_applyOps (TimeWindowDeque.abs_new initialCapacity)
    (ps.map (fun pt => Op.push pt.1 pt.2))
  obtain ⟨_, _, _, _, _, hvals, _⟩ := TimeWindowDeque.abs_queries habs
  rw [hvals]
  show ((ArrayImpl.TimeWindowDeque.applyOps ArrayImpl.TimeWindowDeque.new
      (ps.map (fun pt => Op.push pt.1 pt.2))).data).map PriceData.price = ps.map Prod.fst
  rw [ArrayImpl.TimeWindowDeque.applyOps_pushes]
  simp [ArrayImpl.TimeWindowDeque.new]

/-- Concrete instance of the expire postcondition: three samples at
timestamps 0, 30000, 60000, expired at cutoff 30000. -/
theorem C2_expire_postcondition_witness :
    ((TimeWindowDeque.applyOps (TimeWindowDeque.new 4)
        [Op.push 100 0, Op.push 101 30000, Op.push 102 60000]).getHistory).Pairwise
      (fun a b => a.timestamp ≤ b.timestamp) ∧
    ((∀ s ∈ ((TimeWindowDeque.applyOps (TimeWindowDeque.new 4)
        [Op.push 100 0, Op.push 101 30000, Op.push 102 60000]).expire 30000).getHistory,
      (30000 : ℤ) ≤ s.timestamp) ∧
    ∃ evicted,
      (TimeWindowDeque.applyOps (TimeWindowDeque.new 4)
          [Op.push 100 0, Op.push 101 30000, Op.push 102 60000]).getHistory
        = evicted ++ ((TimeWindowDeque.applyOps (TimeWindowDeque.new 4)
          [Op.push 100 0, Op.push 101 30000, Op.push 102 60000]).expire 30000).getHistory ∧
      ((TimeWindowDeque.applyOps (TimeWindowDeque.new 4)
          [Op.push 100 0, Op.push 101 30000, Op.push 102 60000]).expire 30000).getExpiredValues
        = (TimeWindowDeque.applyOps (TimeWindowDeque.new 4)
          [Op.push 100 0, Op.push 101 30000, Op.push 102 60000]).getExpiredValues ++ evicted ∧
      ∀ s ∈ evicted, s.timestamp < 30000) :=
  ⟨by decide, C2_expire_postcondition 4
    [Op.push 100 0, Op.push 101 30000, Op.push 102 60000] 30000 (by decide)⟩

/-- Claim C5: `getAverage()` is absent exactly when the buffer is empty, and
on a non-empty buffer equals `getSum() / size()` exactly (no rounding: the
model divides rationals). -/
theorem C5_average (d : TimeWindowDeque) :
    (d.getAverage = none ↔ d.size = 0) ∧
    (0 < d.size → d.getAverage = some (d.getSum / d.size)) := by
  constructor
  · by_cases h : 0 < d.size
    · rw [TimeWindowDeque.getAverage, if_pos h]
      simp
      omega
    · rw [TimeWindowDeque.getAverage, if_neg h]
      simp
      omega
  · intro h
    rw [TimeWindowDeque.getAverage, if_pos h]
    rfl

/-- Concrete instance: a buffer holding 7 and 9 is non-empty and averages
`16 / 2`. -/
theorem C5_average_witness :
    0 < ((TimeWindowDeque.new 2).push 7 0 |>.push 9 1).size ∧
    ((TimeWindowDeque.new 2).push 7 0 |>.push 9 1).getAverage
      = some (((TimeWindowDeque.new 2).push 7 0 |>.push 9 1).getSum
          / ((TimeWindowDeque.new 2).push 7 0 |>.push 9 1).size) :=
  ⟨by decide, (C5_average ((TimeWindowDeque.new 2).push 7 0 |>.push 9 1)).2 (by decide)⟩

/-- Claim C6: expire idempotence — for every circular-buffer state and every
pair of cutoffs with the second not exceeding the first, the second expire is
a no-op; with `cutoff2 = cutoff` this is idempotence of `expire(cutoff)`. -/
theorem C6_expire_idempotent (d : TimeWindowDeque) (cutoff cutoff2 : ℤ)
    (hle : cutoff2 ≤ cutoff) :
    (d.expire cutoff).expire cutoff2 = d.expire cutoff := by
  apply TimeWindowDeque.expire_noop
  have hstop := TimeWindowDeque.expireAux_stop cutoff d.data.size d.data d.sum
    d.expiredData le_rfl
  rcases hstop with h | h | ⟨f, hf, hcut⟩
  · exact Or.inl h
  · exact Or.inr (Or.inl h)
  · exact Or.inr (Or.inr ⟨f, hf, le_trans hle hcut⟩)

/-- Concrete instance: expiring twice at the same cutoff changes nothing. -/
theorem C6_expire_idempotent_witness :
    (5 : ℤ) ≤ 5 ∧
    ((((TimeWindowDeque.new 2).push 7 0 |>.push 9 10).expire 5).expire 5
      = (((TimeWindowDeque.new 2).push 7 0 |>.push 9 10).expire 5)) :=
  ⟨by decide, C6_expire_idempotent ((TimeWindowDeque.new 2).push 7 0 |>.push 9 10) 5 5 (by decide)⟩

/-- Counterexample to claim C7: `push` does not reject non-finite input.
Pushing `NaN` (which is not finite) into a fresh deque returns `.ok` — the
sample is appended and the running sum becomes `NaN` — instead of an
explicit error. -/
theorem C7_counterexample :
    JSNum.isFinite JSNum.nan = false ∧
    JSModel.TimeWindowDeque.push JSModel.TimeWindowDeque.new JSNum.nan (JSNum.finite 0)
      = Except.ok ⟨[⟨JSNum.nan, JSNum.finite 0⟩], JSNum.nan, []⟩ :=
  ⟨rfl, rfl⟩

/-- Claim C7 as amended: `push` performs no finiteness validation — for every
state and every value and timestamp, finite or not, it succeeds, appending
the sample and JS-adding the value into the running sum; since adding `NaN`
to any sum yields `NaN`, a non-finite value silently corrupts `runningSum`
rather than being rejected. -/
theorem C7_push_no_validation (d : JSModel.TimeWindowDeque) (v t : JSNum) :
    JSModel.TimeWindowDeque.push d v t
      = Except.ok ⟨d.data ++ [⟨v, t⟩], d.sum.add v, d.expiredData⟩ ∧
    JSNum.add d.sum JSNum.nan = JSNum.nan := by
  refine ⟨rfl, ?_⟩
  cases d.sum <;> rfl

/-- Claim C8: empty-buffer queries — on every reachable circular-buffer deque
with no live and no expired samples, `getLatestPrice()` and `getAverage()`
are absent, `getSum()` is 0, and the three sequence queries are empty. -/
theorem C8_empty_queries (initialCapacity : ℤ) (ops : List Op)
    (hlive : (TimeWindowDeque.applyOps (TimeWindowDeque.new initialCapacity) ops).getHistory = [])
    (hexp : (TimeWindowDeque.applyOps (TimeWindowDeque.new initialCapacity) ops).getExpiredValues = []) :
    (TimeWindowDeque.applyOps (TimeWindowDeque.new initialCapacity) ops).getLatestPrice = none ∧
    (TimeWindowDeque.applyOps (TimeWindowDeque.new initialCapacity) ops).getAverage = none ∧
    (TimeWindowDeque.applyOps (TimeWindowDeque.new initialCapacity) ops).getSum = 0 ∧
    (TimeWindowDeque.applyOps (TimeWindowDeque.new initialCapacity) ops).getHistory = [] ∧
    (TimeWindowDeque.applyOps (TimeWindowDeque.new initialCapacity) ops).getValues = [] ∧
    (TimeWindowDeque.applyOps (TimeWindowDeque.new initialCapacity) ops).getExpiredValues = [] := by
  have habs := TimeWindowDeque.abs_applyOps (TimeWindowDeque.abs_new initialCapacity) ops
  obtain ⟨hsize, hsum, hlatest, havg, hhist, hvals, hexpv⟩ :=
    TimeWindowDeque.abs_queries habs
  have hdata : (ArrayImpl.TimeWindowDeque.applyOps ArrayImpl.TimeWindowDeque.new ops).data = [] := by
    rw [hhist] at hlive
    exact hlive
  have hsuminv := ArrayImpl.TimeWindowDeque.sumInv_applyOps ops
  rw [ArrayImpl.TimeWindowDeque.SumInv, hdata] at hsuminv
  refine ⟨?_, ?_, ?_, hlive, ?_, hexp⟩
  · rw [hlatest, ArrayImpl.TimeWindowDeque.getLatestPrice, hdata]
    rfl
  · rw [havg, ArrayImpl.TimeWindowDeque.getAverage,
      if_neg (by simp [ArrayImpl.TimeWindowDeque.size, hdata])]
  · rw [hsum, ArrayImpl.TimeWindowDeque.getSum, hsuminv]
    rfl
  · rw [hvals, ArrayImpl.TimeWindowDeque.getValues, hdata]
    rfl

/-- Concrete instance: the freshly constructed deque has no live and no
expired samples, and all queries give the empty answers. -/
theorem C8_empty_queries_witness :
    (TimeWindowDeque.applyOps (TimeWindowDeque.new 4) []).getHistory = [] ∧
    (TimeWindowDeque.applyOps (TimeWindowDeque.new 4) []).getExpiredValues = [] ∧
    ((TimeWindowDeque.applyOps (TimeWindowDeque.new 4) []).getLatestPrice = none ∧
     (TimeWindowDeque.applyOps (TimeWindowDeque.new 4) []).getAverage = none ∧
     (TimeWindowDeque.applyOps (TimeWindowDeque.new 4) []).getSum = 0 ∧
     (TimeWindowDeque.applyOps (TimeWindowDeque.new 4) []).getHistory = [] ∧
     (TimeWindowDeque.applyOps (TimeWindowDeque.new 4) []).getValues = [] ∧
     (TimeWindowDeque.applyOps (TimeWindowDeque.new 4) []).getExpiredValues = []) :=
  ⟨by decide, by decide, C8_empty_queries 4 [] (by decide) (by decide)⟩

/-- Claim C9: query purity — each of the seven query operations, rendered as
a state transformer exactly as the TypeScript method bodies read (none of
which assigns a field), returns the state unchanged; consequently running a
query before any other operation gives the same result as running that
operation alone.  Aliasing of returned arrays is outside this value-level
model; the snapshot copies of `getHistory`/`getValues`/`getExpiredValues`
are fresh lists by construction. -/
theorem C9_query_purity (d : TimeWindowDeque) :
    d.sizeM.2 = d ∧ d.getSumM.2 = d ∧ d.getLatestPriceM.2 = d ∧
    d.getAverageM.2 = d ∧ d.getHistoryM.2 = d ∧ d.getValuesM.2 = d ∧
    d.getExpiredValuesM.2 = d ∧
    ∀ op : Op, TimeWindowDeque.applyOp d.getHistoryM.2 op = TimeWindowDeque.applyOp d op :=
  ⟨rfl, rfl, rfl, rfl, rfl, rfl, rfl, fun _ => rfl⟩
